import Mathlib

/-!
Shallow embedding of the financial projection engine of the SmartPlan
retirement/investment calculators (sources `src/RetirementCalculator.tsx`,
`src/InvestmentCalculator.tsx` and the duplicated single-file calculator
variants).  Monetary amounts, ages and rates are modelled as exact
rationals; JavaScript `Math.round` is modelled as `fun x => ⌊x + 1/2⌋`
(nearest integer, halves toward positive infinity, which is JavaScript's
convention), `Math.max` / `Math.min` as `max` / `min`, and the bounded
month loops as structural recursion on the (finite) month count.
`Math.pow` only ever occurs with an integer exponent in the embedded
code paths, so it is modelled with `Monoid.npow`.
-/

/-- JavaScript `Math.round`: nearest integer, halves rounding toward positive
infinity, i.e. `⌊x + 1/2⌋`. -/
def jsRound (x : ℚ) : ℤ := ⌊x + 1/2⌋

/-- Number of simulated months for a horizon given in (possibly fractional)
years: the source computes `Math.max(0, Math.round(years * 12))`; the
`Int.toNat` realises the clamp at 0. -/
def monthsOf (years : ℚ) : ℕ := (jsRound (years * 12)).toNat

/-- One iteration of the month loop of `accumulate`
(`RetirementCalculator.tsx` lines 94-99, identical in the duplicated
variant): at each 12-month boundary (`m > 1 && (m-1) % 12 == 0`, with `m`
the 1-based month counter) the monthly contribution is escalated by
`1 + escalationPA`; the employer match is `employerMatchPct * mContr`; the
balance then grows by the monthly rate `growthPA / 12`.  The state is the
pair (balance, current monthly contribution). -/
def accumStep (escalationPA growthPA employerMatchPct : ℚ) (m : ℕ) (st : ℚ × ℚ) : ℚ × ℚ :=
  if 1 < m ∧ (m - 1) % 12 = 0 then
    ((st.1 + st.2 * (1 + escalationPA) + employerMatchPct * (st.2 * (1 + escalationPA)))
        * (1 + growthPA / 12),
     st.2 * (1 + escalationPA))
  else
    ((st.1 + st.2 + employerMatchPct * st.2) * (1 + growthPA / 12), st.2)

/-- The month loop of `accumulate`: `k` months remain, `m` is the 1-based
index of the next month, `ser` is the year-end series recorded so far (the
balance is pushed after every month with `m % 12 == 0`). -/
def accumGo (escalationPA growthPA employerMatchPct : ℚ) :
    ℕ → ℕ → ℚ × ℚ → List ℚ → ℚ × List ℚ
  | 0, _, st, ser => (st.1, ser)
  | k + 1, m, st, ser =>
    accumGo escalationPA growthPA employerMatchPct k (m + 1)
      (accumStep escalationPA growthPA employerMatchPct m st)
      (if m % 12 = 0 then ser ++ [(accumStep escalationPA growthPA employerMatchPct m st).1]
       else ser)

/-- `accumulate` of `RetirementCalculator.tsx` (lines 88-101) and of the
duplicated variant: month-by-month accumulation of a capital source,
returning the final value and the year-end series.  The source performs no
clamping of negative balances or contributions. -/
def accumulate (years startBalance monthlyStart escalationPA growthPA employerMatchPct : ℚ) :
    ℚ × List ℚ :=
  accumGo escalationPA growthPA employerMatchPct (monthsOf years) 1 (startBalance, monthlyStart) []

/-- `fvGrowingAnnuity(P0, r, g, n)` of the comprehensive retirement
calculator: future value of an annually escalating annual payment `P0`
over `n` whole years (the engine only ever calls it with the integer
`yearsToRetire`, so the exponent is a natural number).  When
`|r - g| < 1e-8` the degenerate branch `P0 * n * (1+r)^n` is used;
otherwise `P0 * ((1+r)^n - (1+g)^n)/(r-g)` scaled by `(1+r)`. -/
def fvGrowingAnnuity (P0 r g : ℚ) (n : ℕ) : ℚ :=
  if n = 0 then 0
  else if |r - g| < 1 / 100000000 then P0 * (n : ℚ) * (1 + r) ^ n
  else P0 * (((1 + r) ^ n - (1 + g) ^ n) / (r - g)) * (1 + r)

/-- Payment timing convention of `fvGrowingAnnuityMonthly` in
`InvestmentCalculator.tsx`: payments at the start or at the close of each
month. -/
inductive Timing where
  | atEnd
  | atBegin
deriving DecidableEq

/-- `fvGrowingAnnuityMonthly` of `InvestmentCalculator.tsx` (lines
542-558): monthly-rate variant; the degenerate branch fires when the
monthly rates differ by less than `1e-10`, and the `begin` timing scales
the result by one extra month of growth. -/
def fvGrowingAnnuityMonthly (P0Monthly annualR annualG : ℚ) (months : ℕ) (timing : Timing) : ℚ :=
  if months = 0 ∨ P0Monthly ≤ 0 then 0
  else if |annualR / 12 - annualG / 12| < 1 / 10000000000 then
    match timing with
    | Timing.atBegin => P0Monthly * (months : ℚ) * (1 + annualR / 12) ^ months * (1 + annualR / 12)
    | Timing.atEnd => P0Monthly * (months : ℚ) * (1 + annualR / 12) ^ months
  else
    match timing with
    | Timing.atBegin =>
        P0Monthly * (((1 + annualR / 12) ^ months - (1 + annualG / 12) ^ months)
          / (annualR / 12 - annualG / 12)) * (1 + annualR / 12)
    | Timing.atEnd =>
        P0Monthly * (((1 + annualR / 12) ^ months - (1 + annualG / 12) ^ months)
          / (annualR / 12 - annualG / 12))

/-- Arguments of `simulateDrawdown` (`RetirementCalculator.tsx` lines
103-116). -/
structure DrawdownArgs where
  startFV : ℚ
  startAge : ℚ
  retireAge : ℚ
  endAge : ℚ
  postRetGrowthPA : ℚ
  cpiPA : ℚ
  monthlyIncomeTodayR : ℚ
  capitalNeedsAtRet : ℚ

/-- `monthsToEnd = Math.max(0, Math.round((endAge - retireAge) * 12))`. -/
def DrawdownArgs.monthsToEnd (a : DrawdownArgs) : ℕ :=
  (jsRound ((a.endAge - a.retireAge) * 12)).toNat

/-- Monthly post-retirement growth rate `growthM = postRetGrowthPA / 12`. -/
def DrawdownArgs.growthM (a : DrawdownArgs) : ℚ := a.postRetGrowthPA / 12

/-- Monthly inflation rate `cpiM = cpiPA / 12`. -/
def DrawdownArgs.cpiM (a : DrawdownArgs) : ℚ := a.cpiPA / 12

/-- Age recorded for simulated month `m`: `retireAge + m / 12`. -/
def DrawdownArgs.ageAt (a : DrawdownArgs) (m : ℕ) : ℚ := a.retireAge + (m : ℚ) / 12

/-- `monthsFromToday = Math.round((retireAge - startAge) * 12) + m`. -/
def DrawdownArgs.monthsFromToday (a : DrawdownArgs) (m : ℕ) : ℤ :=
  jsRound ((a.retireAge - a.startAge) * 12) + m

/-- The inflation-escalated nominal income need of month `m`:
`monthlyIncomeTodayR * (1 + cpiM) ^ Math.max(0, monthsFromToday)` (the
`Int.toNat` realises the clamp at 0 of `RetirementCalculator.tsx` line
126; the duplicated variant omits the clamp, which agrees whenever
`monthsFromToday >= 0`). -/
def DrawdownArgs.incomeNominal (a : DrawdownArgs) (m : ℕ) : ℚ :=
  a.monthlyIncomeTodayR * (1 + a.cpiM) ^ (a.monthsFromToday m).toNat

/-- One month of the drawdown loop (`RetirementCalculator.tsx` lines
126-129): grow the balance by the monthly rate, withdraw
`min(balance, incomeNominal)`.  Returns (withdrawal, new balance). -/
def ddStep (a : DrawdownArgs) (m : ℕ) (bal : ℚ) : ℚ × ℚ :=
  (min (bal * (1 + a.growthM)) (a.incomeNominal m),
   bal * (1 + a.growthM) - min (bal * (1 + a.growthM)) (a.incomeNominal m))

/-- The balance entering simulated month `m`; month 0 starts from
`Math.max(0, startFV - capitalNeedsAtRet)`. -/
def balBefore (a : DrawdownArgs) : ℕ → ℚ
  | 0 => max 0 (a.startFV - a.capitalNeedsAtRet)
  | m + 1 => (ddStep a m (balBefore a m)).2

/-- The amount withdrawn in simulated month `m`. -/
def withdrawalAt (a : DrawdownArgs) (m : ℕ) : ℚ := (ddStep a m (balBefore a m)).1

/-- The balance recorded for simulated month `m` (after growth and
withdrawal). -/
def balAfter (a : DrawdownArgs) (m : ℕ) : ℚ := (ddStep a m (balBefore a m)).2

/-- Update of the run-out marker: the first month whose recorded balance is
`<= 0` sets `runOutAge` to that month's age (`RetirementCalculator.tsx`
line 131). -/
def ddRo (a : DrawdownArgs) (m : ℕ) (bal2 : ℚ) (ro : Option ℚ) : Option ℚ :=
  if ro = none ∧ bal2 ≤ 0 then some (a.ageAt m) else ro

/-- The drawdown loop: `k` months remain (the source loop runs over
`m = 0 .. monthsToEnd` inclusive, i.e. `monthsToEnd + 1` iterations),
`m` is the index of the next month, `bal` the current balance and `ro`
the run-out marker so far.  Returns (points, (final balance, run-out)). -/
def ddLoop (a : DrawdownArgs) : ℕ → ℕ → ℚ → Option ℚ → List (ℚ × ℚ) × (ℚ × Option ℚ)
  | 0, _, bal, ro => ([], (bal, ro))
  | k + 1, m, bal, ro =>
    ((a.ageAt m, (ddStep a m bal).2) ::
        (ddLoop a k (m + 1) (ddStep a m bal).2 (ddRo a m (ddStep a m bal).2 ro)).1,
     (ddLoop a k (m + 1) (ddStep a m bal).2 (ddRo a m (ddStep a m bal).2 ro)).2)

/-- Result of `simulateDrawdown`.  The source also returns `pvAtStart`,
the ending balance discounted by `Math.pow(1 + cpiPA, endAge - startAge)`
with a fractional exponent; that one field involves a real-exponent power
and is not referenced by any property below, so it is not modelled. -/
structure DrawdownResult where
  points : List (ℚ × ℚ)
  endBalance : ℚ
  runOutAge : Option ℚ

/-- `simulateDrawdown` of `RetirementCalculator.tsx` (lines 116-135,
identical in the duplicated variant up to the exponent clamp noted at
`DrawdownArgs.incomeNominal`). -/
def simulateDrawdown (a : DrawdownArgs) : DrawdownResult :=
  ⟨(ddLoop a (a.monthsToEnd + 1) 0 (max 0 (a.startFV - a.capitalNeedsAtRet)) none).1,
   (ddLoop a (a.monthsToEnd + 1) 0 (max 0 (a.startFV - a.capitalNeedsAtRet)) none).2.1,
   (ddLoop a (a.monthsToEnd + 1) 0 (max 0 (a.startFV - a.capitalNeedsAtRet)) none).2.2⟩

/-- Acceptability test of the goal solver (`RetirementCalculator.tsx` line
142): no run-out and non-negative ending balance.  An outcome is the pair
(runOutAge, endBalance). -/
def okOutcome (r : Option ℚ × ℚ) : Bool := r.1.isNone && decide (0 ≤ r.2)

/-- The bracketing phase of `solveRecommended` (line 144): while the
outcome at `hi` is unacceptable and the guard counter (modelled as the
remaining fuel, initially 28) has not run out, multiply `hi` by 1.5. -/
def expandHi (f : ℚ → Option ℚ × ℚ) : ℕ → ℚ → ℚ
  | 0, hi => hi
  | n + 1, hi => if okOutcome (f hi) then hi else expandHi f n (hi * (3/2))

/-- One bisection iteration of `solveRecommended` (line 145): test the
midpoint; keep the half that still brackets the boundary of
acceptability. -/
def bisectStep (f : ℚ → Option ℚ × ℚ) (p : ℚ × ℚ) : ℚ × ℚ :=
  if okOutcome (f ((p.1 + p.2) / 2)) then (p.1, (p.1 + p.2) / 2)
  else ((p.1 + p.2) / 2, p.2)

/-- `solveRecommended` (`RetirementCalculator.tsx` lines 137-147): expand
`hi` (at most 28 times), run exactly 48 bisection iterations, and return
`Math.round((lo + hi) / 2)`. -/
def solveRecommended (f : ℚ → Option ℚ × ℚ) (lo hi : ℚ) : ℤ :=
  jsRound ((((bisectStep f)^[48] (lo, expandHi f 28 hi)).1 +
            ((bisectStep f)^[48] (lo, expandHi f 28 hi)).2) / 2)

/-- Funding-health classification shared by both calculators:
`good` = fully funded, `warn` = partly funded, `bad` = underfunded. -/
inductive Health where
  | good
  | warn
  | bad
deriving DecidableEq

/-- `fundedRatio` of the comprehensive retirement calculator (line 192):
`requiredCapitalReal > 0 ? assetsReal / requiredCapitalReal : 0`. -/
def resultsFundedRatio (requiredCapitalReal assetsReal : ℚ) : ℚ :=
  if 0 < requiredCapitalReal then assetsReal / requiredCapitalReal else 0

/-- `health` of the comprehensive retirement calculator (line 193):
starts at `bad`, becomes `good` when the ratio is `>= 1`, else `warn`
when it is `>= 0.7`. -/
def resultsHealth (fundedRatio : ℚ) : Health :=
  if 1 ≤ fundedRatio then Health.good
  else if 7/10 ≤ fundedRatio then Health.warn
  else Health.bad

/-- `shortfallReal` of the comprehensive retirement calculator (line 185):
`Math.max(0, requiredCapitalReal - assetsReal)`. -/
def resultsShortfallReal (requiredCapitalReal assetsReal : ℚ) : ℚ :=
  max 0 (requiredCapitalReal - assetsReal)

/-- `fundedRatio` of `InvestmentCalculator.tsx` (line 663):
`hasTarget && targetReal > 0 ? projectedReal / targetReal : 0`. -/
def invFundedRatio (hasTarget : Bool) (targetReal projectedReal : ℚ) : ℚ :=
  if hasTarget = true ∧ 0 < targetReal then projectedReal / targetReal else 0

/-- `health` of `InvestmentCalculator.tsx` (lines 664-668): `good` when
there is no target or the target is `<= 0`, else tiered on the ratio. -/
def invHealth (hasTarget : Bool) (targetReal fundedRatio : ℚ) : Health :=
  if hasTarget = false ∨ targetReal ≤ 0 then Health.good
  else if 1 ≤ fundedRatio then Health.good
  else if 7/10 ≤ fundedRatio then Health.warn
  else Health.bad

/-- `shortfallReal` of `InvestmentCalculator.tsx` (line 624):
`Math.max(0, targetReal - projectedReal)`. -/
def invShortfallReal (targetReal projectedReal : ℚ) : ℚ :=
  max 0 (targetReal - projectedReal)

/-- An outcome function for which every candidate is acceptable; used to
instantiate the solver theorem at a concrete input. -/
def alwaysOk : ℚ → Option ℚ × ℚ := fun _ => (none, 0)

/-- Concrete drawdown arguments with non-negative income and moderate
rates, used to instantiate drawdown theorems. -/
def sampleArgs : DrawdownArgs := ⟨1000, 60, 65, 66, 6/100, 5/100, 100, 0⟩

/-- Concrete drawdown arguments exhibiting a negative monthly inflation
factor (`cpiPA = -24`, so `1 + cpiM = -1`): income need 12 in today's
terms, zero starting capital, two further months after retirement. -/
def cexPinArgs : DrawdownArgs := ⟨0, 65, 65, 65 + 1/6, 0, -24, 12, 0⟩

/-- Concrete drawdown arguments whose end age precedes the retirement
age. -/
def cexLenArgs : DrawdownArgs := ⟨0, 50, 65, 60, 0, 0, 0, 0⟩

/-- The final value computed by the accumulation loop does not depend on
the series recorded so far. -/
theorem accumGo_fst_ser_irrel (e g p : ℚ) :
    ∀ (k m : ℕ) (st : ℚ × ℚ) (ser ser' : List ℚ),
      (accumGo e g p k m st ser).1 = (accumGo e g p k m st ser').1 := by
  intro k
  induction k with
  | zero => intro m st ser ser'; rfl
  | succ k ih => intro m st ser ser'; simp only [accumGo]; exact ih _ _ _ _

/-- The contribution part of one accumulation step. -/
theorem accumStep_snd (e g p : ℚ) (m : ℕ) (st : ℚ × ℚ) :
    (accumStep e g p m st).2 =
      if 1 < m ∧ (m - 1) % 12 = 0 then st.2 * (1 + e) else st.2 := by
  unfold accumStep; split <;> rfl

/-- The balance part of one accumulation step, written through the updated
contribution. -/
theorem accumStep_fst (e g p : ℚ) (m : ℕ) (st : ℚ × ℚ) :
    (accumStep e g p m st).1 =
      (st.1 + (accumStep e g p m st).2 + p * (accumStep e g p m st).2) * (1 + g / 12) := by
  unfold accumStep; split <;> rfl

/-- The starting balance contributes to the final value additively, as a
pure lump sum compounded over the whole horizon: the loop applies no
clamping to it. -/
theorem accumGo_fst_affine (e g p : ℚ) :
    ∀ (k m : ℕ) (st : ℚ × ℚ) (ser : List ℚ),
      (accumGo e g p k m st ser).1 =
        st.1 * (1 + g / 12) ^ k + (accumGo e g p k m (0, st.2) ser).1 := by
  intro k
  induction k with
  | zero => intro m st ser; simp [accumGo]
  | succ k ih =>
    intro m st ser
    simp only [accumGo]
    rw [ih (m + 1) (accumStep e g p m st), ih (m + 1) (accumStep e g p m (0, st.2))]
    have hsnd : (accumStep e g p m (0, st.2)).2 = (accumStep e g p m st).2 := by
      rw [accumStep_snd, accumStep_snd]
    have hser :
        (accumGo e g p k (m + 1) (0, (accumStep e g p m st).2)
          (if m % 12 = 0 then ser ++ [(accumStep e g p m st).1] else ser)).1 =
        (accumGo e g p k (m + 1) (0, (accumStep e g p m (0, st.2)).2)
          (if m % 12 = 0 then ser ++ [(accumStep e g p m (0, st.2)).1] else ser)).1 := by
      rw [hsnd]
      exact accumGo_fst_ser_irrel e g p k (m + 1) (0, (accumStep e g p m st).2) _ _
    rw [hser, accumStep_fst e g p m st, accumStep_fst e g p m (0, st.2), hsnd]
    ring

/-- C6: accumulating over a horizon of 0 years returns the starting
balance as the final value and an empty yearly series, for every capital
source. -/
theorem accumulate_zero_horizon (startBalance monthlyStart escalationPA growthPA mp : ℚ) :
    accumulate 0 startBalance monthlyStart escalationPA growthPA mp = (startBalance, []) := by
  have h : monthsOf 0 = 0 := by norm_num [monthsOf, jsRound]
  simp [accumulate, h, accumGo]

/-- C7 (amended): `accumulate` performs no clamping at its boundary: the
starting balance — negative or not — enters the recurrence as-is and
contributes `startBalance * (1 + growthPA/12) ^ months` additively to the
final value, so a call with a negative starting balance differs from the
zero-clamped call whenever that term is nonzero. -/
theorem accumulate_startBalance_affine
    (years startBalance monthlyStart escalationPA growthPA mp : ℚ) :
    (accumulate years startBalance monthlyStart escalationPA growthPA mp).1 =
      startBalance * (1 + growthPA / 12) ^ monthsOf years +
        (accumulate years 0 monthlyStart escalationPA growthPA mp).1 :=
  accumGo_fst_affine escalationPA growthPA mp (monthsOf years) 1 (startBalance, monthlyStart) []

/-- C7 counterexample: with a negative starting balance of -100, a one-month
horizon and all rates zero, `accumulate` returns -100, not the 0 that the
same call with the negative input replaced by zero returns: negative
inputs are not clamped. -/
theorem accumulate_negative_not_clamped_cex :
    (accumulate (1/12) (-100) 0 0 0 0).1 = -100 ∧
    (accumulate (1/12) 0 0 0 0 0).1 = 0 ∧
    (accumulate (1/12) (-100) 0 0 0 0).1 ≠ (accumulate (1/12) 0 0 0 0 0).1 := by
  have hm : monthsOf (1/12) = 1 := by norm_num [monthsOf, jsRound]
  have h1 : (accumulate (1/12) (-100) 0 0 0 0).1 = -100 := by
    norm_num [accumulate, hm, accumGo, accumStep]
  have h2 : (accumulate (1/12) 0 0 0 0 0).1 = 0 := by
    norm_num [accumulate, hm, accumGo, accumStep]
  refine ⟨h1, h2, ?_⟩
  rw [h1, h2]
  norm_num

/-- C2 (amended): in the degenerate regime `|r - g| < 1e-8` with a positive
initial monthly payment `P` (annualised to `P * 12` at the call sites) and
a horizon of at least one whole year, `fvGrowingAnnuity` returns exactly
the closed-form limit `P * 12 * n * (1+r)^n` — the match is exact, hence
within every positive relative tolerance; for `P = 1000`, `r = 0.10`,
`n = 1` the result is 13200. -/
theorem fvGrowingAnnuity_degenerate_exact (P r g : ℚ) (n : ℕ)
    (hP : 0 < P) (hn : 1 ≤ n) (hrg : |r - g| < 1 / 100000000) :
    fvGrowingAnnuity (P * 12) r g n = P * 12 * (n : ℚ) * (1 + r) ^ n := by
  have hn0 : ¬ n = 0 := by omega
  rw [fvGrowingAnnuity, if_neg hn0, if_pos hrg]

/-- Witness for the degenerate growing-annuity theorem, at the spec's own
instance `P = 1000`, `r = g = 1/10`, `n = 1`. -/
theorem fvGrowingAnnuity_degenerate_exact_w :
    fvGrowingAnnuity (1000 * 12) (1/10) (1/10) 1 = 1000 * 12 * ((1 : ℕ) : ℚ) * (1 + 1/10) ^ 1 :=
  fvGrowingAnnuity_degenerate_exact 1000 (1/10) (1/10) 1 (by norm_num) (by norm_num) (by norm_num)

/-- C2 counterexample: at `P = 1000`, `r = g = 1/10`, `n = 1` the code
returns 13200, not 14520, and 13200 is not within relative tolerance
`1e-6` of 14520. -/
theorem fvGrowingAnnuity_not_14520_cex :
    fvGrowingAnnuity (1000 * 12) (1/10) (1/10) 1 = 13200 ∧
    (13200 : ℚ) ≠ 14520 ∧
    ¬ |fvGrowingAnnuity (1000 * 12) (1/10) (1/10) 1 - 14520| / 14520 ≤ 1 / 1000000 := by
  have h : fvGrowingAnnuity (1000 * 12) (1/10) (1/10) 1 = 13200 := by
    norm_num [fvGrowingAnnuity]
  refine ⟨h, by norm_num, ?_⟩
  rw [h]
  norm_num

/-- C8 (amended): the funded ratio is `projected / required` when the
required capital is positive and 0 otherwise; health is tiered at 1 and
0.7; the shortfall is `max 0 (required - projected)`.  A non-positive
required capital is classified fully funded (`good`) by the investment
calculator but underfunded (`bad`) by the comprehensive retirement
calculator, whose ratio 0 falls into the bottom tier. -/
theorem fundingAssessment_spec (req proj target projInv : ℚ) :
    (0 < req → resultsFundedRatio req proj = proj / req) ∧
    (req ≤ 0 → resultsFundedRatio req proj = 0) ∧
    (1 ≤ resultsFundedRatio req proj →
      resultsHealth (resultsFundedRatio req proj) = Health.good) ∧
    (resultsFundedRatio req proj < 1 → 7/10 ≤ resultsFundedRatio req proj →
      resultsHealth (resultsFundedRatio req proj) = Health.warn) ∧
    (resultsFundedRatio req proj < 7/10 →
      resultsHealth (resultsFundedRatio req proj) = Health.bad) ∧
    (req ≤ 0 → resultsHealth (resultsFundedRatio req proj) = Health.bad) ∧
    resultsShortfallReal req proj = max 0 (req - proj) ∧
    (target ≤ 0 → invHealth true target (invFundedRatio true target projInv) = Health.good) ∧
    (0 < target → invFundedRatio true target projInv = projInv / target) ∧
    invShortfallReal target projInv = max 0 (target - projInv) := by
  refine ⟨?_, ?_, ?_, ?_, ?_, ?_, rfl, ?_, ?_, rfl⟩
  · intro h; rw [resultsFundedRatio, if_pos h]
  · intro h; rw [resultsFundedRatio, if_neg (by linarith)]
  · intro h; rw [resultsHealth, if_pos h]
  · intro h1 h2; rw [resultsHealth, if_neg (by linarith), if_pos h2]
  · intro h; rw [resultsHealth, if_neg (by linarith), if_neg (by linarith)]
  · intro h
    have h0 : resultsFundedRatio req proj = 0 := by
      rw [resultsFundedRatio, if_neg (by linarith)]
    rw [h0, resultsHealth, if_neg (by norm_num), if_neg (by norm_num)]
  · intro h; rw [invHealth, if_pos (Or.inr h)]
  · intro h; rw [invFundedRatio, if_pos ⟨rfl, h⟩]

/-- C8 counterexample: with required capital 0 and projected capital 5,
the comprehensive retirement calculator computes funded ratio 0 and
classifies the position underfunded, not fully funded. -/
theorem fundingHealth_required_nonpos_cex :
    resultsFundedRatio 0 5 = 0 ∧
    resultsHealth (resultsFundedRatio 0 5) = Health.bad ∧
    Health.bad ≠ Health.good := by
  have h : resultsFundedRatio 0 5 = 0 := by norm_num [resultsFundedRatio]
  refine ⟨h, ?_, by decide⟩
  rw [h, resultsHealth]
  norm_num

/-- Characterisation of the bracketing phase: with `n` expansion retries
remaining, the returned upper bound is `hi * 1.5^k` for some `k ≤ n` such
that all smaller expansions were unacceptable, and either the returned
bound is acceptable or the retry budget was exhausted. -/
theorem expandHi_spec (f : ℚ → Option ℚ × ℚ) :
    ∀ (n : ℕ) (hi : ℚ), ∃ k, k ≤ n ∧
      (∀ j, j < k → okOutcome (f (hi * (3/2) ^ j)) = false) ∧
      expandHi f n hi = hi * (3/2) ^ k ∧
      (okOutcome (f (hi * (3/2) ^ k)) = true ∨ k = n) := by
  intro n
  induction n with
  | zero =>
    intro hi
    refine ⟨0, le_rfl, fun j hj => absurd hj (Nat.not_lt_zero j), ?_, Or.inr rfl⟩
    simp [expandHi]
  | succ n ih =>
    intro hi
    by_cases h : okOutcome (f hi) = true
    · refine ⟨0, Nat.zero_le _, fun j hj => absurd hj (Nat.not_lt_zero j), ?_, Or.inl ?_⟩
      · simp [expandHi, h]
      · simpa using h
    · obtain ⟨k, hk, hfail, heq, hlast⟩ := ih (hi * (3/2))
      have hpow : ∀ j : ℕ, hi * (3/2) * (3/2) ^ j = hi * (3/2) ^ (j + 1) := by
        intro j; ring
      refine ⟨k + 1, Nat.succ_le_succ hk, ?_, ?_, ?_⟩
      · intro j hj
        match j with
        | 0 => simpa using h
        | j + 1 =>
          have := hfail j (by omega)
          rwa [hpow j] at this
      · rw [expandHi, if_neg h, heq, hpow k]
      · rw [← hpow k]
        rcases hlast with h1 | h1
        · exact Or.inl h1
        · exact Or.inr (by omega)

/-- C1: for every outcome function `f` (monotone or not) and every
starting bracket `lo = 0`, `hi > 0`, the solver's run is fully described
by a bounded computation: the upper bound is expanded geometrically by
the factor 1.5 at most 28 times, stopping early only at an acceptable
outcome; then exactly 48 bisection iterations are applied (each setting
`hi = mid` when the midpoint is acceptable and `lo = mid` otherwise), and
the returned value is the midpoint of the final bracket rounded with
`Math.round` to a whole currency unit.  Being a total function of these
bounded iterations, the solver terminates on every input. -/
theorem solveRecommended_brackets_then_bisects (f : ℚ → Option ℚ × ℚ) (hi : ℚ)
    (hhi : 0 < hi) :
    ∃ k, k ≤ 28 ∧
      (∀ j, j < k → okOutcome (f (hi * (3/2) ^ j)) = false) ∧
      expandHi f 28 hi = hi * (3/2) ^ k ∧
      (okOutcome (f (hi * (3/2) ^ k)) = true ∨ k = 28) ∧
      solveRecommended f 0 hi =
        jsRound ((((bisectStep f)^[48] (0, hi * (3/2) ^ k)).1 +
                  ((bisectStep f)^[48] (0, hi * (3/2) ^ k)).2) / 2) := by
  obtain ⟨k, hk, hfail, heq, hlast⟩ := expandHi_spec f 28 hi
  refine ⟨k, hk, hfail, heq, hlast, ?_⟩
  rw [solveRecommended, heq]

/-- Witness for the solver theorem at the concrete outcome function that
accepts every candidate and the starting bound 1. -/
theorem solveRecommended_brackets_then_bisects_w :
    ∃ k, k ≤ 28 ∧
      (∀ j, j < k → okOutcome (alwaysOk ((1 : ℚ) * (3/2) ^ j)) = false) ∧
      expandHi alwaysOk 28 1 = 1 * (3/2) ^ k ∧
      (okOutcome (alwaysOk ((1 : ℚ) * (3/2) ^ k)) = true ∨ k = 28) ∧
      solveRecommended alwaysOk 0 1 =
        jsRound ((((bisectStep alwaysOk)^[48] (0, 1 * (3/2) ^ k)).1 +
                  ((bisectStep alwaysOk)^[48] (0, 1 * (3/2) ^ k)).2) / 2) :=
  solveRecommended_brackets_then_bisects alwaysOk 1 (by norm_num)

/-- A withdrawal step never leaves a negative balance: the withdrawal is
capped by the grown balance. -/
theorem ddStep_snd_nonneg (a : DrawdownArgs) (m : ℕ) (bal : ℚ) :
    0 ≤ (ddStep a m bal).2 := by
  have h := min_le_left (bal * (1 + a.growthM)) (a.incomeNominal m)
  simp only [ddStep]
  linarith

/-- The drawdown loop records one point per iteration. -/
theorem ddLoop_length (a : DrawdownArgs) :
    ∀ (k m : ℕ) (bal : ℚ) (ro : Option ℚ), ((ddLoop a k m bal ro).1).length = k := by
  intro k
  induction k with
  | zero => intro m bal ro; rfl
  | succ k ih => intro m bal ro; simp only [ddLoop, List.length_cons, ih]

/-- Every balance recorded by the drawdown loop is non-negative. -/
theorem ddLoop_points_nonneg (a : DrawdownArgs) :
    ∀ (k m : ℕ) (bal : ℚ) (ro : Option ℚ) (q : ℚ × ℚ),
      q ∈ (ddLoop a k m bal ro).1 → 0 ≤ q.2 := by
  intro k
  induction k with
  | zero => intro m bal ro q hq; simp [ddLoop] at hq
  | succ k ih =>
    intro m bal ro q hq
    simp only [ddLoop, List.mem_cons] at hq
    rcases hq with hq | hq
    · rw [hq]; exact ddStep_snd_nonneg a m bal
    · exact ih _ _ _ _ hq

/-- The final balance of the drawdown loop is non-negative whenever the
incoming balance is. -/
theorem ddLoop_end_nonneg (a : DrawdownArgs) :
    ∀ (k m : ℕ) (bal : ℚ) (ro : Option ℚ), 0 ≤ bal → 0 ≤ (ddLoop a k m bal ro).2.1 := by
  intro k
  induction k with
  | zero => intro m bal ro h; exact h
  | succ k ih => intro m bal ro h; exact ih _ _ _ (ddStep_snd_nonneg a m bal)

/-- Unfolding equation for `balBefore` at a successor month. -/
theorem balBefore_succ (a : DrawdownArgs) (m : ℕ) :
    balBefore a (m + 1) = (ddStep a m (balBefore a m)).2 := rfl

/-- Run on the balance trajectory, the drawdown loop records exactly the
per-month post-withdrawal balances, and its final balance is the balance
entering the month after the last simulated one. -/
theorem ddLoop_points_eq (a : DrawdownArgs) :
    ∀ (k m : ℕ) (ro : Option ℚ),
      (ddLoop a k m (balBefore a m) ro).1 =
        (List.range k).map (fun j => (a.ageAt (m + j), balAfter a (m + j))) ∧
      (ddLoop a k m (balBefore a m) ro).2.1 = balBefore a (m + k) := by
  intro k
  induction k with
  | zero => intro m ro; simp [ddLoop]
  | succ k ih =>
    intro m ro
    have hb : (ddStep a m (balBefore a m)).2 = balBefore a (m + 1) := rfl
    constructor
    · show (a.ageAt m, (ddStep a m (balBefore a m)).2) ::
        (ddLoop a k (m + 1) (ddStep a m (balBefore a m)).2
          (ddRo a m (ddStep a m (balBefore a m)).2 ro)).1 = _
      rw [hb, (ih (m + 1) (ddRo a m (balBefore a (m + 1)) ro)).1]
      rw [List.range_succ_eq_map, List.map_cons, List.map_map]
      refine congrArg₂ _ ?_ ?_
      · show (a.ageAt m, balBefore a (m + 1)) = (a.ageAt (m + 0), balAfter a (m + 0))
        rw [Nat.add_zero]
        rfl
      · refine List.map_congr_left fun j hj => ?_
        show (a.ageAt (m + 1 + j), balAfter a (m + 1 + j)) =
          (a.ageAt (m + (j + 1)), balAfter a (m + (j + 1)))
        rw [show m + 1 + j = m + (j + 1) by omega]
    · show (ddLoop a k (m + 1) (ddStep a m (balBefore a m)).2
          (ddRo a m (ddStep a m (balBefore a m)).2 ro)).2.1 = _
      rw [hb, (ih (m + 1) (ddRo a m (balBefore a (m + 1)) ro)).2]
      rw [show m + 1 + k = m + (k + 1) by omega]

/-- Once the run-out marker is set it is never overwritten. -/
theorem ddLoop_ro_some (a : DrawdownArgs) :
    ∀ (k m : ℕ) (bal x : ℚ), (ddLoop a k m bal (some x)).2.2 = some x := by
  intro k
  induction k with
  | zero => intro m bal x; rfl
  | succ k ih =>
    intro m bal x
    show (ddLoop a k (m + 1) _ (ddRo a m _ (some x))).2.2 = some x
    rw [show ddRo a m ((ddStep a m bal).2) (some x) = some x by simp [ddRo]]
    exact ih _ _ _

/-- The run-out marker produced by the loop is the age component of the
first recorded point whose balance is `≤ 0`. -/
theorem ddLoop_ro_find (a : DrawdownArgs) :
    ∀ (k m : ℕ) (bal : ℚ),
      (ddLoop a k m bal none).2.2 =
        (((ddLoop a k m bal none).1).find? (fun q => decide (q.2 ≤ 0))).map Prod.fst := by
  intro k
  induction k with
  | zero => intro m bal; rfl
  | succ k ih =>
    intro m bal
    by_cases h : (ddStep a m bal).2 ≤ 0
    · have hro : ddRo a m ((ddStep a m bal).2) none = some (a.ageAt m) := by
        simp [ddRo, h]
      show (ddLoop a k (m + 1) _ (ddRo a m _ none)).2.2 = _
      rw [hro, ddLoop_ro_some]
      have hfind : ((a.ageAt m, (ddStep a m bal).2) ::
          (ddLoop a k (m + 1) ((ddStep a m bal).2) (ddRo a m ((ddStep a m bal).2) none)).1).find?
            (fun q => decide (q.2 ≤ 0)) = some (a.ageAt m, (ddStep a m bal).2) := by
        rw [List.find?_cons_of_pos]
        simpa using h
      show _ = (((a.ageAt m, (ddStep a m bal).2) ::
          (ddLoop a k (m + 1) ((ddStep a m bal).2) (ddRo a m ((ddStep a m bal).2) none)).1).find?
            (fun q => decide (q.2 ≤ 0))).map Prod.fst
      rw [hfind]
      rfl
    · have hro : ddRo a m ((ddStep a m bal).2) none = none := by
        simp [ddRo, h]
      show (ddLoop a k (m + 1) _ (ddRo a m _ none)).2.2 = _
      rw [hro]
      have hfind : ((a.ageAt m, (ddStep a m bal).2) ::
          (ddLoop a k (m + 1) ((ddStep a m bal).2) (ddRo a m ((ddStep a m bal).2) none)).1).find?
            (fun q => decide (q.2 ≤ 0)) =
          ((ddLoop a k (m + 1) ((ddStep a m bal).2) (ddRo a m ((ddStep a m bal).2) none)).1).find?
            (fun q => decide (q.2 ≤ 0)) := by
        rw [List.find?_cons_of_neg]
        simpa using h
      show _ = (((a.ageAt m, (ddStep a m bal).2) ::
          (ddLoop a k (m + 1) ((ddStep a m bal).2) (ddRo a m ((ddStep a m bal).2) none)).1).find?
            (fun q => decide (q.2 ≤ 0))).map Prod.fst
      rw [hfind, hro] at *
      exact ih (m + 1) ((ddStep a m bal).2)

/-- C3: with a non-negative monthly income need and a post-retirement
rate of at least -1200% (so the monthly growth factor `1 + growthM` is
non-negative), each month's withdrawal equals
`min(balance after growth, inflation-escalated nominal income)`, never
exceeds the available grown balance, and every recorded balance as well
as the ending balance is non-negative. -/
theorem simulateDrawdown_withdrawal_bounded (a : DrawdownArgs)
    (hI : 0 ≤ a.monthlyIncomeTodayR) (hR : -12 ≤ a.postRetGrowthPA) :
    (∀ m, withdrawalAt a m = min (balBefore a m * (1 + a.growthM)) (a.incomeNominal m)) ∧
    (∀ m, withdrawalAt a m ≤ balBefore a m * (1 + a.growthM)) ∧
    (∀ q ∈ (simulateDrawdown a).points, 0 ≤ q.2) ∧
    0 ≤ (simulateDrawdown a).endBalance := by
  refine ⟨fun m => rfl, fun m => min_le_left _ _, ?_, ?_⟩
  · intro q hq
    exact ddLoop_points_nonneg a (a.monthsToEnd + 1) 0 _ none q hq
  · exact ddLoop_end_nonneg a (a.monthsToEnd + 1) 0 _ none (le_max_left 0 _)

/-- Witness for the drawdown withdrawal/non-negativity theorem at a
concrete argument set. -/
theorem simulateDrawdown_withdrawal_bounded_w :
    0 ≤ (simulateDrawdown sampleArgs).endBalance :=
  (simulateDrawdown_withdrawal_bounded sampleArgs (by norm_num [sampleArgs])
    (by norm_num [sampleArgs])).2.2.2

/-- With a non-negative income need and a monthly inflation factor that is
non-negative (`cpiPA ≥ -12`), every month's nominal income need is
non-negative. -/
theorem incomeNominal_nonneg (a : DrawdownArgs)
    (hI : 0 ≤ a.monthlyIncomeTodayR) (hC : -12 ≤ a.cpiPA) (m : ℕ) :
    0 ≤ a.incomeNominal m := by
  have h1 : (0 : ℚ) ≤ 1 + a.cpiM := by
    simp only [DrawdownArgs.cpiM]
    linarith
  exact mul_nonneg hI (pow_nonneg h1 _)

/-- A month that starts with a zero balance withdraws nothing and ends
with a zero balance, provided the month's income need is non-negative. -/
theorem ddStep_at_zero (a : DrawdownArgs) (m : ℕ) (h : 0 ≤ a.incomeNominal m) :
    (ddStep a m 0).1 = 0 ∧ (ddStep a m 0).2 = 0 := by
  constructor <;> simp [ddStep, min_eq_left h]

/-- Once the entering balance is 0, it stays 0 for all later months. -/
theorem balBefore_pinned (a : DrawdownArgs)
    (hI : 0 ≤ a.monthlyIncomeTodayR) (hC : -12 ≤ a.cpiPA) :
    ∀ m, balBefore a m = 0 → ∀ d, balBefore a (m + d) = 0 := by
  intro m hm d
  induction d with
  | zero => exact hm
  | succ d ih =>
    rw [show m + (d + 1) = (m + d) + 1 by omega, balBefore_succ, ih]
    exact (ddStep_at_zero a (m + d) (incomeNominal_nonneg a hI hC _)).2

/-- C4 (amended): with a non-negative income need and a non-negative
monthly inflation factor (`cpiPA ≥ -12`, which every valid rate assumption
`> -1` satisfies), the recorded exhaustion point is the age of the first
simulated month whose balance is `≤ 0`; it is `null` exactly when every
recorded balance stays positive; once a month's balance reaches 0 every
later month keeps balance 0 and withdraws 0; and the recorded series still
spans the full requested horizon of `monthsToEnd + 1` months. -/
theorem simulateDrawdown_exhaustion_spec (a : DrawdownArgs)
    (hI : 0 ≤ a.monthlyIncomeTodayR) (hC : -12 ≤ a.cpiPA) :
    (simulateDrawdown a).runOutAge =
      (((simulateDrawdown a).points.find? (fun q => decide (q.2 ≤ 0))).map Prod.fst) ∧
    ((simulateDrawdown a).runOutAge = none ↔ ∀ q ∈ (simulateDrawdown a).points, 0 < q.2) ∧
    ((simulateDrawdown a).points =
      (List.range (a.monthsToEnd + 1)).map (fun m => (a.ageAt m, balAfter a m))) ∧
    (∀ m k, balAfter a m ≤ 0 → m < k → balAfter a k = 0 ∧ withdrawalAt a k = 0) ∧
    (simulateDrawdown a).points.length = a.monthsToEnd + 1 := by
  have hfind : (simulateDrawdown a).runOutAge =
      (((simulateDrawdown a).points.find? (fun q => decide (q.2 ≤ 0))).map Prod.fst) :=
    ddLoop_ro_find a (a.monthsToEnd + 1) 0 (max 0 (a.startFV - a.capitalNeedsAtRet))
  refine ⟨hfind, ?_, ?_, ?_, ?_⟩
  · rw [hfind, Option.map_eq_none']
    rw [List.find?_eq_none]
    constructor
    · intro h q hq
      have := h q hq
      simp only [decide_eq_true_eq] at this
      exact lt_of_not_le this
    · intro h q hq
      simp only [decide_eq_true_eq]
      exact not_le.mpr (h q hq)
  · have h3 := (ddLoop_points_eq a (a.monthsToEnd + 1) 0 none).1
    refine h3.trans (List.map_congr_left fun j hj => ?_)
    rw [Nat.zero_add]
  · intro m k hm hk
    have h0 : balAfter a m = 0 := le_antisymm hm (ddStep_snd_nonneg a m _)
    have h1 : balBefore a (m + 1) = 0 := h0
    have h2 : balBefore a k = 0 := by
      have := balBefore_pinned a hI hC (m + 1) h1 (k - (m + 1))
      rwa [show m + 1 + (k - (m + 1)) = k by omega] at this
    constructor
    · show (ddStep a k (balBefore a k)).2 = 0
      rw [h2]
      exact (ddStep_at_zero a k (incomeNominal_nonneg a hI hC _)).2
    · show (ddStep a k (balBefore a k)).1 = 0
      rw [h2]
      exact (ddStep_at_zero a k (incomeNominal_nonneg a hI hC _)).1
  · exact ddLoop_length a (a.monthsToEnd + 1) 0 _ none

/-- Witness for the exhaustion-point theorem at a concrete argument
set. -/
theorem simulateDrawdown_exhaustion_spec_w :
    (simulateDrawdown sampleArgs).points.length = sampleArgs.monthsToEnd + 1 :=
  (simulateDrawdown_exhaustion_spec sampleArgs (by norm_num [sampleArgs])
    (by norm_num [sampleArgs])).2.2.2.2
/-- C4 counterexample: with income need 12 (non-negative, as the claim
requires) but `cpiPA = -24` (monthly inflation factor `-1`), the balance
is exhausted at month 0 (`runOutAge = some 65`), yet the recorded balance
of month 1 is 12, not 0: the negative nominal income of month 1 is
"withdrawn", un-pinning the balance. -/
theorem simulateDrawdown_pinning_cex :
    (0 : ℚ) ≤ cexPinArgs.monthlyIncomeTodayR ∧
    (simulateDrawdown cexPinArgs).runOutAge = some 65 ∧
    (simulateDrawdown cexPinArgs).points = [(65, 0), (65 + 1/12, 12), (65 + 1/6, 0)] ∧
    (12 : ℚ) ≠ 0 := by
  have ht2 : Int.toNat 2 = 2 := rfl
  have hmte : cexPinArgs.monthsToEnd = 2 := by
    norm_num [DrawdownArgs.monthsToEnd, cexPinArgs, jsRound, ht2]
  have hg : cexPinArgs.growthM = 0 := by norm_num [DrawdownArgs.growthM, cexPinArgs]
  have hi0 : cexPinArgs.incomeNominal 0 = 12 := by
    norm_num [DrawdownArgs.incomeNominal, DrawdownArgs.monthsFromToday, DrawdownArgs.cpiM,
      cexPinArgs, jsRound, ht2]
  have hi1 : cexPinArgs.incomeNominal 1 = -12 := by
    norm_num [DrawdownArgs.incomeNominal, DrawdownArgs.monthsFromToday, DrawdownArgs.cpiM,
      cexPinArgs, jsRound, ht2]
  have hi2 : cexPinArgs.incomeNominal 2 = 12 := by
    norm_num [DrawdownArgs.incomeNominal, DrawdownArgs.monthsFromToday, DrawdownArgs.cpiM,
      cexPinArgs, jsRound, ht2]
  have ha0 : cexPinArgs.ageAt 0 = 65 := by norm_num [DrawdownArgs.ageAt, cexPinArgs]
  have ha1 : cexPinArgs.ageAt 1 = 65 + 1/12 := by norm_num [DrawdownArgs.ageAt, cexPinArgs]
  have ha2 : cexPinArgs.ageAt 2 = 65 + 1/6 := by norm_num [DrawdownArgs.ageAt, cexPinArgs]
  have hb0 : balBefore cexPinArgs 0 = 0 := by
    show max 0 (cexPinArgs.startFV - cexPinArgs.capitalNeedsAtRet) = 0
    norm_num [cexPinArgs]
  have hba0 : balAfter cexPinArgs 0 = 0 := by
    show (ddStep cexPinArgs 0 (balBefore cexPinArgs 0)).2 = 0
    rw [hb0]
    norm_num [ddStep, hg, hi0, min_def]
  have hba1 : balAfter cexPinArgs 1 = 12 := by
    show (ddStep cexPinArgs 1 (balBefore cexPinArgs 1)).2 = 12
    rw [show balBefore cexPinArgs 1 = 0 from hba0]
    norm_num [ddStep, hg, hi1, min_def]
  have hba2 : balAfter cexPinArgs 2 = 0 := by
    show (ddStep cexPinArgs 2 (balBefore cexPinArgs 2)).2 = 0
    rw [show balBefore cexPinArgs 2 = 12 from hba1]
    norm_num [ddStep, hg, hi2, min_def]
  have hpts : (simulateDrawdown cexPinArgs).points = [(65, 0), (65 + 1/12, 12), (65 + 1/6, 0)] := by
    have h := (ddLoop_points_eq cexPinArgs (cexPinArgs.monthsToEnd + 1) 0 none).1
    show (ddLoop cexPinArgs (cexPinArgs.monthsToEnd + 1) 0
      (max 0 (cexPinArgs.startFV - cexPinArgs.capitalNeedsAtRet)) none).1 = _
    rw [show (max 0 (cexPinArgs.startFV - cexPinArgs.capitalNeedsAtRet)) =
      balBefore cexPinArgs 0 from rfl]
    rw [h, hmte]
    rw [show List.range (2 + 1) = [0, 1, 2] from rfl]
    simp only [List.map_cons, List.map_nil, Nat.zero_add]
    rw [ha0, ha1, ha2, hba0, hba1, hba2]
  have hro : (simulateDrawdown cexPinArgs).runOutAge =
      (((simulateDrawdown cexPinArgs).points.find? (fun q => decide (q.2 ≤ 0))).map Prod.fst) :=
    ddLoop_ro_find cexPinArgs (cexPinArgs.monthsToEnd + 1) 0 _
  refine ⟨by norm_num [cexPinArgs], ?_, hpts, by norm_num⟩
  rw [hro, hpts]
  norm_num [List.find?]

/-- C9 (amended): the drawdown simulation starts from the balance
`max(0, startFV - capitalNeedsAtRet)` (never negative); whenever
`retireAge ≤ endAge` — the spec's time horizons are non-negative — the
returned series contains exactly `round((endAge - retireAge) * 12) + 1`
points (in general `max(0, round(...)) + 1`); the first recorded point
already reflects one growth-and-withdrawal step, and when
`endAge = retireAge` the series is the single point of month 0, so one
withdrawal is still taken. -/
theorem simulateDrawdown_init_and_length (a : DrawdownArgs)
    (h : a.retireAge ≤ a.endAge) :
    balBefore a 0 = max 0 (a.startFV - a.capitalNeedsAtRet) ∧
    (simulateDrawdown a).points.length = a.monthsToEnd + 1 ∧
    ((simulateDrawdown a).points.length : ℤ) = jsRound ((a.endAge - a.retireAge) * 12) + 1 ∧
    (simulateDrawdown a).points.head? = some (a.ageAt 0, balAfter a 0) ∧
    (a.endAge = a.retireAge → (simulateDrawdown a).points = [(a.ageAt 0, balAfter a 0)]) := by
  have hlen : (simulateDrawdown a).points.length = a.monthsToEnd + 1 :=
    ddLoop_length a (a.monthsToEnd + 1) 0 _ none
  have hnn : 0 ≤ jsRound ((a.endAge - a.retireAge) * 12) := by
    rw [jsRound]
    refine Int.le_floor.mpr ?_
    have h12 : (0 : ℚ) ≤ (a.endAge - a.retireAge) * 12 :=
      mul_nonneg (sub_nonneg.mpr h) (by norm_num)
    push_cast
    linarith
  have hpts0 : (simulateDrawdown a).points =
      (List.range (a.monthsToEnd + 1)).map (fun j => (a.ageAt (0 + j), balAfter a (0 + j))) :=
    (ddLoop_points_eq a (a.monthsToEnd + 1) 0 none).1
  refine ⟨rfl, hlen, ?_, ?_, ?_⟩
  · rw [hlen]
    push_cast [DrawdownArgs.monthsToEnd]
    rw [Int.toNat_of_nonneg hnn]
  · rw [hpts0, List.range_succ_eq_map, List.map_cons, List.head?_cons, Nat.add_zero]
  · intro he
    have hmte : a.monthsToEnd = 0 := by
      rw [DrawdownArgs.monthsToEnd, he, jsRound]
      norm_num
    rw [hpts0, hmte]
    rw [show List.range (0 + 1) = [0] from rfl]
    simp only [List.map_cons, List.map_nil, Nat.add_zero]

/-- Witness for the drawdown initialisation/length theorem at a concrete
argument set with `retireAge ≤ endAge`. -/
theorem simulateDrawdown_init_and_length_w :
    balBefore sampleArgs 0 = max 0 (sampleArgs.startFV - sampleArgs.capitalNeedsAtRet) :=
  (simulateDrawdown_init_and_length sampleArgs (by norm_num [sampleArgs])).1

/-- C9 counterexample: with `retireAge = 65` and `endAge = 60` the series
has a single point, while the claim's unclamped count
`round((endAge - retireAge) * 12) + 1` is -59. -/
theorem simulateDrawdown_length_cex :
    (simulateDrawdown cexLenArgs).points.length = 1 ∧
    jsRound ((cexLenArgs.endAge - cexLenArgs.retireAge) * 12) + 1 = -59 ∧
    ((simulateDrawdown cexLenArgs).points.length : ℤ) ≠
      jsRound ((cexLenArgs.endAge - cexLenArgs.retireAge) * 12) + 1 := by
  have h1 : (simulateDrawdown cexLenArgs).points.length = cexLenArgs.monthsToEnd + 1 :=
    ddLoop_length cexLenArgs (cexLenArgs.monthsToEnd + 1) 0 _ none
  have h2 : jsRound ((cexLenArgs.endAge - cexLenArgs.retireAge) * 12) = -60 := by
    rw [jsRound]
    norm_num [cexLenArgs]
  have hmte : cexLenArgs.monthsToEnd = 0 := by
    rw [DrawdownArgs.monthsToEnd, h2]
    rfl
  refine ⟨by rw [h1, hmte], by rw [h2]; norm_num, ?_⟩
  rw [h1, hmte, h2]
  norm_num

/-- Monotonicity of the accumulation loop in the state: with non-negative
escalation, match and growth factors, a pointwise larger (balance,
contribution) state yields a final value at least as large, provided the
smaller contribution is non-negative. -/
theorem accumGo_fst_mono (e g p : ℚ) (he : 0 ≤ 1 + e) (hp : 0 ≤ 1 + p)
    (hg : 0 ≤ 1 + g / 12) :
    ∀ (k m : ℕ) (st₁ st₂ : ℚ × ℚ) (ser₁ ser₂ : List ℚ),
      st₁.1 ≤ st₂.1 → 0 ≤ st₁.2 → st₁.2 ≤ st₂.2 →
      (accumGo e g p k m st₁ ser₁).1 ≤ (accumGo e g p k m st₂ ser₂).1 := by
  intro k
  induction k with
  | zero => intro m st₁ st₂ ser₁ ser₂ hb hc0 hc; exact hb
  | succ k ih =>
    intro m st₁ st₂ ser₁ ser₂ hb hc0 hc
    simp only [accumGo]
    apply ih
    · rw [accumStep_fst e g p m st₁, accumStep_fst e g p m st₂,
        accumStep_snd e g p m st₁, accumStep_snd e g p m st₂]
      by_cases h : 1 < m ∧ (m - 1) % 12 = 0
      · simp only [if_pos h]
        have h1 : st₁.2 * (1 + e) ≤ st₂.2 * (1 + e) := mul_le_mul_of_nonneg_right hc he
        have h2 : st₁.2 * (1 + e) * (1 + p) ≤ st₂.2 * (1 + e) * (1 + p) :=
          mul_le_mul_of_nonneg_right h1 hp
        apply mul_le_mul_of_nonneg_right _ hg
        nlinarith
      · simp only [if_neg h]
        have h2 : st₁.2 * (1 + p) ≤ st₂.2 * (1 + p) := mul_le_mul_of_nonneg_right hc hp
        apply mul_le_mul_of_nonneg_right _ hg
        nlinarith
    · rw [accumStep_snd e g p m st₁]
      by_cases h : 1 < m ∧ (m - 1) % 12 = 0
      · simp only [if_pos h]; exact mul_nonneg hc0 he
      · simp only [if_neg h]; exact hc0
    · rw [accumStep_snd e g p m st₁, accumStep_snd e g p m st₂]
      by_cases h : 1 < m ∧ (m - 1) % 12 = 0
      · simp only [if_pos h]; exact mul_le_mul_of_nonneg_right hc he
      · simp only [if_neg h]; exact hc

/-- Monotonicity of the accumulation loop in the growth rate: with a
non-negative state and equal contributions, a larger annual growth rate
(both at least -12, keeping the monthly factor non-negative) yields a
final value at least as large. -/
theorem accumGo_fst_mono_growth (e p : ℚ) (he : 0 ≤ 1 + e) (hp : 0 ≤ 1 + p)
    (g₁ g₂ : ℚ) (hg₁ : 0 ≤ 1 + g₁ / 12) (hgg : g₁ ≤ g₂) :
    ∀ (k m : ℕ) (st₁ st₂ : ℚ × ℚ) (ser₁ ser₂ : List ℚ),
      0 ≤ st₁.1 → st₁.1 ≤ st₂.1 → 0 ≤ st₁.2 → st₁.2 = st₂.2 →
      (accumGo e g₁ p k m st₁ ser₁).1 ≤ (accumGo e g₂ p k m st₂ ser₂).1 := by
  intro k
  induction k with
  | zero => intro m st₁ st₂ ser₁ ser₂ h0 hb hc0 hc; exact hb
  | succ k ih =>
    intro m st₁ st₂ ser₁ ser₂ h0 hb hc0 hc
    simp only [accumGo]
    have hsnd1 : (accumStep e g₁ p m st₁).2 =
        if 1 < m ∧ (m - 1) % 12 = 0 then st₁.2 * (1 + e) else st₁.2 :=
      accumStep_snd e g₁ p m st₁
    have hsnd2 : (accumStep e g₂ p m st₂).2 =
        if 1 < m ∧ (m - 1) % 12 = 0 then st₂.2 * (1 + e) else st₂.2 :=
      accumStep_snd e g₂ p m st₂
    have hc0' : 0 ≤ (accumStep e g₁ p m st₁).2 := by
      rw [hsnd1]
      by_cases h : 1 < m ∧ (m - 1) % 12 = 0
      · simp only [if_pos h]; exact mul_nonneg hc0 he
      · simp only [if_neg h]; exact hc0
    have hceq : (accumStep e g₁ p m st₁).2 = (accumStep e g₂ p m st₂).2 := by
      rw [hsnd1, hsnd2, hc]
    have hsum : 0 ≤ st₁.1 + (accumStep e g₁ p m st₁).2 + p * (accumStep e g₁ p m st₁).2 := by
      nlinarith [mul_nonneg hc0' hp]
    apply ih
    · rw [accumStep_fst e g₁ p m st₁]
      exact mul_nonneg hsum hg₁
    · rw [accumStep_fst e g₁ p m st₁, accumStep_fst e g₂ p m st₂, ← hceq]
      have hf : (1 : ℚ) + g₁ / 12 ≤ 1 + g₂ / 12 := by linarith
      have hsum2 : st₁.1 + (accumStep e g₁ p m st₁).2 + p * (accumStep e g₁ p m st₁).2 ≤
          st₂.1 + (accumStep e g₁ p m st₁).2 + p * (accumStep e g₁ p m st₁).2 := by
        linarith
      exact mul_le_mul hsum2 hf hg₁ (by linarith)
    · exact hc0'
    · exact hceq

/-- C5 (amended): for inputs with non-negative starting balance and
monthly contribution whose rates satisfy the engine's rate-assumption
domain (escalation and employer match at least -1, growth at least -12 so
the monthly factor stays non-negative), the final value of `accumulate`
is non-decreasing in the starting balance, in the monthly contribution
and in the growth rate, all other fields held fixed. -/
theorem accumulate_fv_monotone (years startBalance monthlyStart escalationPA growthPA mp : ℚ)
    (hB : 0 ≤ startBalance) (hc : 0 ≤ monthlyStart) (hesc : -1 ≤ escalationPA)
    (hmp : -1 ≤ mp) (hg : -12 ≤ growthPA) :
    (∀ b, startBalance ≤ b →
      (accumulate years startBalance monthlyStart escalationPA growthPA mp).1 ≤
        (accumulate years b monthlyStart escalationPA growthPA mp).1) ∧
    (∀ c, monthlyStart ≤ c →
      (accumulate years startBalance monthlyStart escalationPA growthPA mp).1 ≤
        (accumulate years startBalance c escalationPA growthPA mp).1) ∧
    (∀ g, growthPA ≤ g →
      (accumulate years startBalance monthlyStart escalationPA growthPA mp).1 ≤
        (accumulate years startBalance monthlyStart escalationPA g mp).1) := by
  have he' : (0 : ℚ) ≤ 1 + escalationPA := by linarith
  have hp' : (0 : ℚ) ≤ 1 + mp := by linarith
  have hg' : (0 : ℚ) ≤ 1 + growthPA / 12 := by linarith
  refine ⟨fun b hb => ?_, fun c hcc => ?_, fun g hgg => ?_⟩
  · exact accumGo_fst_mono escalationPA growthPA mp he' hp' hg' (monthsOf years) 1
      (startBalance, monthlyStart) (b, monthlyStart) [] [] hb hc le_rfl
  · exact accumGo_fst_mono escalationPA growthPA mp he' hp' hg' (monthsOf years) 1
      (startBalance, monthlyStart) (startBalance, c) [] [] le_rfl hc hcc
  · exact accumGo_fst_mono_growth escalationPA mp he' hp' growthPA g hg' hgg
      (monthsOf years) 1 (startBalance, monthlyStart) (startBalance, monthlyStart) [] []
      hB le_rfl hc rfl

/-- Witness for the monotonicity theorem at a concrete input. -/
theorem accumulate_fv_monotone_w :
    (accumulate 1 0 0 0 0 0).1 ≤ (accumulate 1 1 0 0 0 0).1 :=
  (accumulate_fv_monotone 1 0 0 0 0 0 (by norm_num) (by norm_num) (by norm_num)
    (by norm_num) (by norm_num)).1 1 (by norm_num)

/-- C5 counterexample: with growth rate -2400% p.a. (monthly factor -1)
and a one-month horizon, raising the starting balance from 0 to 1 — both
non-negative, contributions zero, all other fields equal — strictly
lowers the final value: without a bound on the growth rate the claimed
monotonicity fails. -/
theorem accumulate_monotone_cex :
    (0 : ℚ) ≤ 0 ∧ (0 : ℚ) ≤ 1 ∧
    (accumulate (1/12) 1 0 0 (-24) 0).1 < (accumulate (1/12) 0 0 0 (-24) 0).1 := by
  have hm : monthsOf (1/12) = 1 := by norm_num [monthsOf, jsRound]
  have h1 : (accumulate (1/12) 1 0 0 (-24) 0).1 = -1 := by
    norm_num [accumulate, hm, accumGo, accumStep]
  have h2 : (accumulate (1/12) 0 0 0 (-24) 0).1 = 0 := by
    norm_num [accumulate, hm, accumGo, accumStep]
  rw [h1, h2]
  norm_num

/-- The year-end series grows by one entry exactly at the months divisible
by 12: over `k` months starting at 1-based month `m`, the number of
entries added is the number of multiples of 12 in `[m, m + k - 1]`. -/
theorem accumGo_ser_length (e g p : ℚ) :
    ∀ (k m : ℕ) (st : ℚ × ℚ) (ser : List ℚ), 1 ≤ m →
      ((accumGo e g p k m st ser).2).length =
        ser.length + (m + k - 1) / 12 - (m - 1) / 12 := by
  intro k
  induction k with
  | zero => intro m st ser hm; show ser.length = _; omega
  | succ k ih =>
    intro m st ser hm
    simp only [accumGo]
    rw [ih (m + 1) _ _ (by omega)]
    by_cases h : m % 12 = 0
    · rw [if_pos h]
      rw [List.length_append]
      simp only [List.length_cons, List.length_nil]
      omega
    · rw [if_neg h]
      omega

/-- When the final month index is divisible by 12, the last entry pushed
to the series is the final balance itself. -/
theorem accumGo_ser_getLast (e g p : ℚ) :
    ∀ (k m : ℕ) (st : ℚ × ℚ) (ser : List ℚ), 1 ≤ k → (m + k) % 12 = 1 →
      ((accumGo e g p k m st ser).2).getLast? = some ((accumGo e g p k m st ser).1) := by
  intro k
  induction k with
  | zero => intro m st ser hk hmod; omega
  | succ k ih =>
    intro m st ser hk hmod
    rcases Nat.eq_zero_or_pos k with hk0 | hk0
    · subst hk0
      have hm : m % 12 = 0 := by omega
      simp only [accumGo, if_pos hm]
      exact List.getLast?_concat _
    · simp only [accumGo]
      exact ih (m + 1) _ _ hk0 (by omega)

/-- C10 (amended): the yearly series of `accumulate` has exactly
`(max 0 (round(years * 12))) / 12` entries — which equals
`floor(round(years * 12) / 12)` for every non-negative horizon, the only
horizons the spec's `TimeHorizon` admits — and whenever `round(years*12)`
is a positive multiple of 12 the last series entry equals the final
value. -/
theorem accumulate_series_spec (years startBalance monthlyStart escalationPA growthPA mp : ℚ) :
    (accumulate years startBalance monthlyStart escalationPA growthPA mp).2.length =
      monthsOf years / 12 ∧
    (0 ≤ years →
      ((accumulate years startBalance monthlyStart escalationPA growthPA mp).2.length : ℤ) =
        jsRound (years * 12) / 12) ∧
    (∀ k : ℕ, 1 ≤ k → jsRound (years * 12) = 12 * k →
      (accumulate years startBalance monthlyStart escalationPA growthPA mp).2.getLast? =
        some ((accumulate years startBalance monthlyStart escalationPA growthPA mp).1)) := by
  have hlen : (accumulate years startBalance monthlyStart escalationPA growthPA mp).2.length =
      monthsOf years / 12 := by
    have h := accumGo_ser_length escalationPA growthPA mp (monthsOf years) 1
      (startBalance, monthlyStart) [] le_rfl
    show ((accumGo escalationPA growthPA mp (monthsOf years) 1
      (startBalance, monthlyStart) []).2).length = _
    rw [h]
    simp only [List.length_nil]
    omega
  refine ⟨hlen, ?_, ?_⟩
  · intro hy
    have hnn : 0 ≤ jsRound (years * 12) := by
      rw [jsRound]
      refine Int.le_floor.mpr ?_
      have h12 : (0 : ℚ) ≤ years * 12 := mul_nonneg hy (by norm_num)
      push_cast
      linarith
    rw [hlen, monthsOf]
    omega
  · intro k hk hr
    have hm : monthsOf years = 12 * k := by
      rw [monthsOf, hr]
      omega
    have hacc : accumulate years startBalance monthlyStart escalationPA growthPA mp =
        accumGo escalationPA growthPA mp (12 * k) 1 (startBalance, monthlyStart) [] := by
      unfold accumulate
      rw [hm]
    rw [hacc]
    exact accumGo_ser_getLast escalationPA growthPA mp (12 * k) 1
      (startBalance, monthlyStart) [] (by omega) (by omega)

/-- C10 counterexample: for the negative horizon `years = -1/2` the code's
series is empty (months are clamped at 0), while the claim's unclamped
count `floor(round(years * 12) / 12)` is -1: the claimed count is wrong
for negative horizons. -/
theorem accumulate_series_count_cex :
    (accumulate (-1/2) 1 2 0 0 0).2 = [] ∧
    ⌊((jsRound ((-1/2 : ℚ) * 12) : ℚ)) / 12⌋ = -1 ∧
    (((accumulate (-1/2) 1 2 0 0 0).2.length : ℤ)) ≠
      ⌊((jsRound ((-1/2 : ℚ) * 12) : ℚ)) / 12⌋ := by
  have hr : jsRound ((-1/2 : ℚ) * 12) = -6 := by
    rw [jsRound]
    norm_num
  have hm : monthsOf (-1/2) = 0 := by
    rw [monthsOf, hr]
    rfl
  have hser : (accumulate (-1/2) 1 2 0 0 0).2 = [] := by
    unfold accumulate
    rw [hm]
    rfl
  have hfl : ⌊((jsRound ((-1/2 : ℚ) * 12) : ℚ)) / 12⌋ = -1 := by
    rw [hr]
    norm_num
  refine ⟨hser, hfl, ?_⟩
  rw [hser, hfl]
  norm_num
